import Mathlib

/-!
Shallow embedding of the grey-seal retrieval-augmented pipeline
(github.com/holmes89/grey-seal), covering: the chunker (`ChunkText`),
the fallback embedding services, the two vector-store backends
(DuckDB-based `VectorDBImpl` and the pgvector-based
`ResourceVectorRepo`), the question service (answer pipeline) and the
two message-bus consumer loops.  Machine floats are modelled as exact
rationals (the verified properties concern lengths, ordering and
control flow, never rounding); SQL tables are lists of rows; fallible
calls return `Except`.
-/

namespace GreySeal

/-! ### Chunker: `ChunkText` (lib, `func ChunkText(text string, maxWords int) []string`)

`strings.Fields` splits the text around maximal runs of Unicode
whitespace (`unicode.IsSpace`).  `goIsSpace` encodes the full
`White_Space` code-point set tested by `unicode.IsSpace`. -/

/-- The Unicode `White_Space` property, as tested by Go's `unicode.IsSpace`:
U+0009..U+000D, U+0020, U+0085, U+00A0, U+1680, U+2000..U+200A, U+2028,
U+2029, U+202F, U+205F, U+3000. -/
def goIsSpace (c : Char) : Bool :=
  (0x9 ≤ c.toNat && c.toNat ≤ 0xD) || c.toNat == 0x20 || c.toNat == 0x85 ||
  c.toNat == 0xA0 || c.toNat == 0x1680 ||
  (0x2000 ≤ c.toNat && c.toNat ≤ 0x200A) || c.toNat == 0x2028 ||
  c.toNat == 0x2029 || c.toNat == 0x202F || c.toNat == 0x205F ||
  c.toNat == 0x3000

/-- Scanner behind `goFields`: walks the runes left to right, `acc`
holding the (reversed) current word; a whitespace rune closes the
current word, any other rune extends it. -/
def goFieldsAux : List Char → List Char → List (List Char)
  | [], acc => if acc = [] then [] else [acc.reverse]
  | c :: rest, acc =>
    if goIsSpace c then
      if acc = [] then goFieldsAux rest []
      else acc.reverse :: goFieldsAux rest []
    else goFieldsAux rest (c :: acc)

/-- `strings.Fields(text)`: the maximal whitespace-free runs of `text`,
in order, empties dropped. -/
def goFields (text : String) : List String :=
  (goFieldsAux text.toList []).map (fun cs => String.mk cs)

/-- Rune-level `strings.Join(·, " ")`: the word rune lists interleaved
with single `' '` separators. -/
def joinWords : List (List Char) → List Char
  | [] => []
  | [w] => w
  | w :: v :: rest => w ++ ' ' :: joinWords (v :: rest)

/-- `strings.Join(g, " ")`, modelled at the rune level. -/
def goJoin (g : List String) : String :=
  String.mk (joinWords (g.map String.toList))

/-- The word groups built by the `for i := 0; i < len(words); i += maxWords`
loop of `ChunkText`: each group is `words[i : min (i+maxWords) len]`,
rendered here by `take`/`drop` recursion.  The `n = 0` guard only makes
the definition total; `chunkLoopFuel` below shows the Go loop never
terminates there. -/
def chunkGroups (n : Nat) (ws : List String) : List (List String) :=
  if ws = [] ∨ n = 0 then [] else ws.take n :: chunkGroups n (ws.drop n)
termination_by ws.length
decreasing_by
  rename_i h
  push_neg at h
  have hws : ws ≠ [] := h.1
  have hn : n ≠ 0 := h.2
  have : 0 < ws.length := List.length_pos.mpr hws
  simp only [List.length_drop]
  omega

/-- `ChunkText(text, maxWords)`: words of `text` grouped `maxWords` at a
time, each group re-joined with single spaces
(`strings.Join(words[i:end], " ")`). -/
def ChunkText (text : String) (maxWords : Nat) : List String :=
  (chunkGroups maxWords (goFields text)).map goJoin

/-- Outcome of running a Go loop body: a normal value, or a runtime
panic (here: a slice-bounds violation). -/
inductive GoOut (α : Type) where
  | ok (a : α)
  | panicked
deriving DecidableEq, Repr

/-- Go slice expression `ws[i:e]`: panics unless `0 ≤ i ≤ e ≤ len ws`. -/
def goSlice (ws : List String) (i e : Int) : GoOut (List String) :=
  if 0 ≤ i ∧ i ≤ e ∧ e ≤ (ws.length : Int) then
    GoOut.ok ((ws.drop i.toNat).take (e - i).toNat)
  else GoOut.panicked

/-- The literal `ChunkText` loop over `words` with an `Int` counter `i`
stepping by `maxWords`, run on `fuel` iterations: `none` means the fuel
ran out before the loop finished.  Mirrors
`for i := 0; i < len(words); i += maxWords { end := i+maxWords; if end > len(words) { end = len(words) }; chunks = append(chunks, strings.Join(words[i:end], " ")) }`. -/
def chunkLoopFuel (maxWords : Int) (ws : List String) :
    Int → Nat → Option (GoOut (List String))
  | _, 0 => none
  | i, fuel + 1 =>
    if i < (ws.length : Int) then
      match goSlice ws i
          (if i + maxWords > (ws.length : Int) then (ws.length : Int) else i + maxWords) with
      | GoOut.panicked => some GoOut.panicked
      | GoOut.ok seg =>
        match chunkLoopFuel maxWords ws (i + maxWords) fuel with
        | none => none
        | some GoOut.panicked => some GoOut.panicked
        | some (GoOut.ok rest) => some (GoOut.ok (goJoin seg :: rest))
    else some (GoOut.ok [])

/-! ### Embedding services (package `embedding`)

`simpleHash` is FNV-1a over the runes of the text, in `uint32`
arithmetic.  Both mock services derive every vector entry from this
hash; float values are carried as exact rationals. -/

/-- `simpleHash(text string) uint32`: FNV-1a, wrapping at `2^32`. -/
def simpleHash (text : String) : Nat :=
  text.toList.foldl (fun h c => ((h ^^^ c.toNat) * 16777619) % 4294967296) 2166136261

/-- Vector built by `MockEmbeddingService.GenerateEmbedding`: 384
entries, `vector[i] = float32((hash >> (i % 32)) & 1)`. -/
def mockVec (text : String) : List ℚ :=
  (List.range 384).map (fun i => (((simpleHash text) >>> (i % 32)) &&& 1 : ℕ))

/-- Vector built by `DefaultMockOllamaEmbeddingService.GenerateEmbedding`:
384 entries, `embedding[i] = float32((hash*uint32(i+1))%1000-500)/500.0`.
The subtraction is `uint32` arithmetic, so a residue under 500 wraps
around `2^32`; that wrap is modelled exactly. -/
def mockOllamaVec (text : String) : List ℚ :=
  (List.range 384).map (fun i =>
    ((((simpleHash text * (i + 1)) % 4294967296 % 1000 + 4294967296 - 500) % 4294967296 : ℕ)
      : ℚ) / 500)

/-- `MockEmbeddingService` is `struct{}`: it has no fields, hence no
hidden state. -/
structure MockEmbeddingService where
deriving DecidableEq, Repr

/-- A call to `MockEmbeddingService.GenerateEmbedding` (value receiver):
returns the vector together with the service state after the call. -/
def MockEmbeddingService.generate (s : MockEmbeddingService) (text : String) :
    List ℚ × MockEmbeddingService :=
  (mockVec text, s)

/-- `DefaultMockOllamaEmbeddingService` is likewise `struct{}`. -/
structure DefaultMockOllamaEmbeddingService where
deriving DecidableEq, Repr

/-- A call to `DefaultMockOllamaEmbeddingService.GenerateEmbedding`. -/
def DefaultMockOllamaEmbeddingService.generate (s : DefaultMockOllamaEmbeddingService)
    (text : String) : List ℚ × DefaultMockOllamaEmbeddingService :=
  (mockOllamaVec text, s)

/-! ### DuckDB vector store (`lib/repo/vectordb/db.go`) -/

/-- `greyseal.DocumentChunk`. -/
structure DocumentChunk where
  id : String
  content : String
  filePath : String
  chunkID : Int
  vector : List ℚ
deriving DecidableEq, Repr

/-- `greyseal.SearchResult`: a chunk with its score column
(the SQL alias `similarity`). -/
structure SearchResult where
  chunk : DocumentChunk
  similarity : ℚ
deriving DecidableEq, Repr

/-- The `embedding FLOAT[768]` column of the `documents` table created
by `VectorDBImpl.setupTables`: the store's configured dimensionality. -/
def documentsEmbeddingDim : Nat := 768

/-- Insert `x` into a list sorted by `le` (`le x y` = "`x` may come
before `y`"). -/
def insertSorted (le : α → α → Bool) (x : α) : List α → List α
  | [] => [x]
  | y :: ys => if le x y then x :: y :: ys else y :: insertSorted le x ys

/-- The SQL `ORDER BY` of the queries below, modelled as insertion
sort; SQL fixes only the ordering relation, not the algorithm or
tie-breaking. -/
def orderBy (le : α → α → Bool) : List α → List α
  | [] => []
  | x :: xs => insertSorted le x (orderBy le xs)

/-- `VectorDBImpl.StoreDocument`:
`INSERT OR REPLACE INTO documents ... VALUES (...)` — upsert keyed on
the primary key `id`. -/
def StoreDocument (doc : DocumentChunk) (table : List DocumentChunk) : List DocumentChunk :=
  if table.any (fun r => r.id == doc.id) then
    table.map (fun r => if r.id == doc.id then doc else r)
  else table ++ [doc]

/-- `VectorDBImpl.SearchSimilar`:
`if limit <= 0 { limit = 5 }` and then
`SELECT ..., array_cosine_distance(embedding, ?::FLOAT[768]) as similarity
FROM documents ORDER BY similarity DESC LIMIT ?`.
`dist` stands for DuckDB's `array_cosine_distance` builtin (external to
the repository), passed in as a parameter; the `ORDER BY ... DESC`
sorts the computed column descending, so the largest distance comes
first. -/
def SearchSimilar (dist : List ℚ → List ℚ → ℚ) (table : List DocumentChunk)
    (queryVector : List ℚ) (limit : Int) : List SearchResult :=
  (orderBy (fun x y => decide (y.similarity ≤ x.similarity))
      (table.map (fun r => SearchResult.mk r (dist r.vector queryVector)))).take
    (if limit ≤ 0 then (5 : Int) else limit).toNat

/-- Dot product of two rational vectors. -/
def dotList (a b : List ℚ) : ℚ :=
  ((a.zip b).map (fun p => p.1 * p.2)).sum

/-- Cosine distance `1 - cos(a,b)` specialised to unit-norm vectors,
where it is exactly `1 - a·b`: a concrete, exactly-computable instance
of `array_cosine_distance` (and of pgvector's `<=>`) used to
instantiate the `dist` parameter on concrete unit vectors. -/
def unitCosineDistance (a b : List ℚ) : ℚ := 1 - dotList a b

/-! ### pgvector vector store (`lib/repo/vector/resource.go`) -/

/-- A row of the `resource_embeddings` table. -/
structure ResourceEmbeddingRow where
  resourceUuid : String
  chunkIndex : Nat
  content : String
  embedding : List ℚ
deriving DecidableEq, Repr

/-- `question.QueryResult`. -/
structure QueryResult where
  resourceUUID : String
  content : String
deriving DecidableEq, Repr

/-- PostgreSQL `LIMIT $2` semantics: a negative limit is an error
(`LIMIT must not be negative`), otherwise at most `limit` rows. -/
def pgLimit (rows : List α) (limit : Int) : Except String (List α) :=
  if limit < 0 then Except.error "LIMIT must not be negative"
  else Except.ok (rows.take limit.toNat)

/-- `ResourceVectorRepo.Query`: embed the query, then
`SELECT resource_uuid, content from resource_embeddings
ORDER BY embedding <=> $1 LIMIT $2` — ascending cosine distance,
`limit` passed through unmodified.  `embed` stands for
`Embedder.EmbedQuery`, `dist` for pgvector's `<=>` operator. -/
def ResourceVectorQuery (embed : String → Except String (List ℚ))
    (dist : List ℚ → List ℚ → ℚ) (table : List ResourceEmbeddingRow)
    (query : String) (limit : Int) : Except String (List QueryResult) :=
  match embed query with
  | Except.error e => Except.error e
  | Except.ok qv =>
    match pgLimit
        (orderBy (fun x y => decide (dist x.embedding qv ≤ dist y.embedding qv)) table)
        limit with
    | Except.error e => Except.error e
    | Except.ok rows => Except.ok (rows.map (fun r => QueryResult.mk r.resourceUuid r.content))

/-! ### Ingestion: `ResourceVectorRepo.Create` -/

/-- `Source` of a `Resource` (protobuf enum). -/
inductive Source where
  | unspecified
  | website
  | pdf
deriving DecidableEq, Repr

/-- The `Resource` entity (protobuf message). -/
structure Resource where
  uuid : String
  createdAt : String
  service : String
  entity : String
  source : Source
  path : String
deriving DecidableEq, Repr

/-- External collaborators of `ResourceVectorRepo.Create`, as the call
outcomes they produce: the wrapped repository's `Create`, `LoadWebsite`
(scraper + HTML loader, yielding page contents), the langchaingo
splitter, the embedder, and whether the `i`-th chunk `INSERT` fails. -/
structure CreateDeps where
  repoCreate : Resource → Except String Unit
  loadWebsite : Resource → Except String (List String)
  splitText : String → Except String (List String)
  embedDocuments : List String → Except String (List (List ℚ))
  insertFails : Nat → Bool

/-- Step 5 of `ResourceVectorRepo.Create`: the
`for i, embedding := range embeddings` loop inserting one row per chunk
into `resource_embeddings`; a failed insert returns the error at once,
leaving the rows already inserted in place. -/
def storeEmbeddingsLoop (insertFails : Nat → Bool) (uuid : String) (chunks : List String) :
    Nat → List (List ℚ) → List ResourceEmbeddingRow →
      Except String Unit × List ResourceEmbeddingRow
  | _, [], db => (Except.ok (), db)
  | i, e :: rest, db =>
    if insertFails i then (Except.error "error saving resource embedding", db)
    else storeEmbeddingsLoop insertFails uuid chunks (i + 1) rest
      (db ++ [ResourceEmbeddingRow.mk uuid i (chunks.getD i "") e])

/-- `ResourceVectorRepo.Create`: record the resource, load content for
website sources (other kinds load nothing), no-op success on empty
content, then split, embed, and store each chunk.  Returns the call's
result together with the `resource_embeddings` table after the call. -/
def ResourceVectorCreate (deps : CreateDeps) (b : Resource)
    (db : List ResourceEmbeddingRow) : Except String Unit × List ResourceEmbeddingRow :=
  match deps.repoCreate b with
  | Except.error e => (Except.error e, db)
  | Except.ok _ =>
    match (match b.source with
           | Source.website => deps.loadWebsite b
           | _ => Except.ok []) with
    | Except.error e => (Except.error ("unable to parse content: " ++ e), db)
    | Except.ok docs =>
      match docs with
      | [] => (Except.ok (), db)
      | d :: _ =>
        match deps.splitText d with
        | Except.error e => (Except.error e, db)
        | Except.ok chunks =>
          match deps.embedDocuments chunks with
          | Except.error e => (Except.error e, db)
          | Except.ok embeds => storeEmbeddingsLoop deps.insertFails b.uuid chunks 0 embeds db

/-! ### Answer pipeline: `questionService.Create` (package `question`) -/

/-- The `Question` entity. -/
structure Question where
  uuid : String
  roleDescription : String
  content : String
deriving DecidableEq, Repr

/-- The `Answer` entity. -/
structure Answer where
  uuid : String
  message : String
  references : List String
deriving DecidableEq, Repr

/-- One generation choice of the LLM response
(`response.Choices[j].Content`). -/
structure GenChoice where
  content : String
deriving DecidableEq, Repr

/-- External collaborators of `questionService.Create`: the question
repository, the `Querier` (the pgvector `Query` above), the LLM client
(`llms.Model.GenerateContent`, one user turn in, choices out) and
`SaveResponse`. -/
structure QuestionServiceDeps where
  repoCreate : Question → Except String Unit
  querierQuery : String → Int → Except String (List QueryResult)
  generateContent : String → Except String (List GenChoice)
  saveResponse : String → String → List String → Except String Unit

/-- The prompt assembled by `questionService.Create`: role preamble,
question text, then the enumerated retrieved contexts. -/
def buildPrompt (q : Question) (contexts : List QueryResult) : String :=
  "You are going to take the role of " ++ q.roleDescription ++ ".\n" ++
  "Based on the following contexts, please answer this question: " ++ q.content ++
  "\n\nContexts:\n" ++
  String.join (contexts.enum.map (fun p => toString (p.1 + 1) ++ ". " ++ p.2.content ++ "\n"))

/-- The deduplicated reference list drawn from `referencesSet`, a
`map[string]any` keyed by resource id.  Go's map iteration order is
unspecified; this model drains the set in first-occurrence order (the
spec leaves the output order explicitly loose). -/
def dedupKeys (l : List String) : List String :=
  l.foldl (fun acc x => if x ∈ acc then acc else acc ++ [x]) []

/-- `questionService.Create`: persist the question, retrieve the top 5
contexts, build the prompt and reference set, generate the answer (one
human turn), concatenate the choices, persist the response.  Every
failure is returned to the caller; the generation step in particular has
no fallback-summary path. -/
def questionCreate (deps : QuestionServiceDeps) (q : Question) : Except String Answer :=
  match deps.repoCreate q with
  | Except.error e => Except.error e
  | Except.ok _ =>
    match deps.querierQuery q.content 5 with
    | Except.error e => Except.error ("failed to query contexts: " ++ e)
    | Except.ok contexts =>
      let references := dedupKeys (contexts.map (fun c => c.resourceUUID))
      match deps.generateContent (buildPrompt q contexts) with
      | Except.error e => Except.error ("failed to generate answer: " ++ e)
      | Except.ok choices =>
        let answers := String.join (choices.map (fun c => c.content ++ "\n"))
        match deps.saveResponse q.uuid answers references with
        | Except.error e => Except.error ("failed to save response: " ++ e)
        | Except.ok _ => Except.ok (Answer.mk q.uuid answers references)

/-! ### Async adapter worker loops (`QuestionConsumer.run`,
`ResourceConsumer.run`)

Each worker drains its subscription sequentially; the consumed message
list stands for the delivered payload stream.  `uuidGen n` is the fresh
identity minted by the `n`-th `uuid.New()` call of the loop.  Each list
entry of the result records the outcome logged for one message:
`some e` for a logged pipeline failure (the loop then `continue`s),
`none` for a logged successful import. -/

/-- The consumer mints its own identity: wire identity is never
trusted. -/
def mintQuestion (uuid : String) (i : Question) : Question :=
  { uuid := uuid, roleDescription := i.roleDescription, content := i.content }

/-- `QuestionConsumer.run`. -/
def questionConsumerRun (create : Question → Except String Unit) (uuidGen : Nat → String) :
    List Question → List (Option String)
  | [] => []
  | i :: rest =>
    (match create (mintQuestion (uuidGen 0) i) with
     | Except.error e => some e
     | Except.ok _ => none) ::
    questionConsumerRun create (fun n => uuidGen (n + 1)) rest

/-- The resource consumer likewise mints a fresh identity, copying the
remaining fields off the wire. -/
def mintResource (uuid : String) (i : Resource) : Resource :=
  { uuid := uuid, createdAt := i.createdAt, service := i.service, entity := i.entity,
    source := i.source, path := i.path }

/-- `ResourceConsumer.run`. -/
def resourceConsumerRun (create : Resource → Except String Unit) (uuidGen : Nat → String) :
    List Resource → List (Option String)
  | [] => []
  | i :: rest =>
    (match create (mintResource (uuidGen 0) i) with
     | Except.error e => some e
     | Except.ok _ => none) ::
    resourceConsumerRun create (fun n => uuidGen (n + 1)) rest

/-! ### Basic chunker lemmas -/

theorem chunkGroups_nil (n : Nat) : chunkGroups n [] = [] := by
  rw [chunkGroups]; simp

theorem chunkGroups_cons (n : Nat) (ws : List String) (hw : ws ≠ []) (hn : n ≠ 0) :
    chunkGroups n ws = ws.take n :: chunkGroups n (ws.drop n) := by
  rw [chunkGroups]
  simp [hw, hn]

/-- Joining the groups gives back the word list. -/
theorem chunkGroups_flatten (n : Nat) (hn : n ≠ 0) (ws : List String) :
    (chunkGroups n ws).flatten = ws := by
  suffices H : ∀ l (ws : List String), ws.length = l → (chunkGroups n ws).flatten = ws by
    exact H ws.length ws rfl
  intro l
  induction l using Nat.strong_induction_on with
  | _ l ih =>
    intro ws hl
    cases hws : ws with
    | nil => simp [chunkGroups_nil]
    | cons a as =>
      subst hws
      rw [chunkGroups_cons n _ (by simp) hn]
      have hlt : ((a :: as).drop n).length < l := by
        subst hl
        simp only [List.length_drop, List.length_cons]
        omega
      have := ih _ hlt ((a :: as).drop n) rfl
      simp [this]

/-- The number of groups is `⌈len/n⌉ = (len + n - 1) / n`. -/
theorem chunkGroups_length (n : Nat) (hn : 0 < n) (ws : List String) :
    (chunkGroups n ws).length = (ws.length + n - 1) / n := by
  suffices H : ∀ l (ws : List String), ws.length = l →
      (chunkGroups n ws).length = (ws.length + n - 1) / n by
    exact H ws.length ws rfl
  intro l
  induction l using Nat.strong_induction_on with
  | _ l ih =>
    intro ws hl
    cases hws : ws with
    | nil =>
      rw [chunkGroups_nil]
      simp only [List.length_nil]
      exact (Nat.div_eq_of_lt (by omega)).symm
    | cons a as =>
      subst hws
      rw [chunkGroups_cons n _ (by simp) (by omega)]
      have hlt : ((a :: as).drop n).length < l := by
        subst hl
        simp only [List.length_drop, List.length_cons]
        omega
      have ihd := ih _ hlt ((a :: as).drop n) rfl
      simp only [List.length_cons, List.length_drop] at *
      rw [ihd]
      rcases Nat.lt_or_ge (as.length + 1) n with hsmall | hbig
      · have h1 : as.length + 1 - n = 0 := by omega
        have h2 : (as.length + 1 + n - 1) / n = 1 := by
          apply Nat.div_eq_of_lt_le <;> omega
        have h0 : (0 + n - 1) / n = 0 := Nat.div_eq_of_lt (by omega)
        rw [h1, h2, h0]
      · have h3 : as.length + 1 + n - 1 = (as.length + 1 - n + n - 1) + n := by omega
        rw [h3, Nat.add_div_right _ hn]

/-- Every element of every group is one of the original words. -/
theorem chunkGroups_mem (n : Nat) (ws : List String) :
    ∀ g ∈ chunkGroups n ws, ∀ x ∈ g, x ∈ ws := by
  suffices H : ∀ l (ws : List String), ws.length = l →
      ∀ g ∈ chunkGroups n ws, ∀ x ∈ g, x ∈ ws by
    exact H ws.length ws rfl
  intro l
  induction l using Nat.strong_induction_on with
  | _ l ih =>
    intro ws hl g hg x hx
    rcases Decidable.em (ws = [] ∨ n = 0) with htriv | htriv
    · rw [chunkGroups, if_pos htriv] at hg
      exact absurd hg (List.not_mem_nil g)
    · push_neg at htriv
      rw [chunkGroups_cons n ws htriv.1 htriv.2] at hg
      rcases List.mem_cons.mp hg with hg | hg
      · subst hg
        exact List.mem_of_mem_take hx
      · have hws : 0 < ws.length := List.length_pos.mpr htriv.1
        have hlt : (ws.drop n).length < l := by
          simp only [List.length_drop]; omega
        exact List.mem_of_mem_drop (ih _ hlt (ws.drop n) rfl g hg x hx)

/-- Scanning a whitespace-free prefix just accumulates it. -/
theorem goFieldsAux_append_clean (w : List Char) (hw : ∀ c ∈ w, ¬goIsSpace c) :
    ∀ (s acc : List Char), goFieldsAux (w ++ s) acc = goFieldsAux s (w.reverse ++ acc) := by
  induction w with
  | nil => intro s acc; simp
  | cons c w' ih =>
    intro s acc
    have hc : goIsSpace c = false := by
      have := hw c (by simp)
      simpa using this
    have hw' : ∀ d ∈ w', ¬goIsSpace d := fun d hd => hw d (by simp [hd])
    have hstep : goFieldsAux (c :: w' ++ s) acc = goFieldsAux (w' ++ s) (c :: acc) := by
      show goFieldsAux (c :: (w' ++ s)) acc = _
      simp only [goFieldsAux, hc]
      simp
    rw [hstep, ih hw' s (c :: acc)]
    simp

/-- Every field the scanner emits is nonempty and whitespace-free. -/
theorem goFieldsAux_fields_clean :
    ∀ (s acc : List Char), (∀ c ∈ acc, ¬goIsSpace c) →
      ∀ w ∈ goFieldsAux s acc, w ≠ [] ∧ ∀ c ∈ w, ¬goIsSpace c := by
  intro s
  induction s with
  | nil =>
    intro acc hacc w hw
    by_cases hacc0 : acc = []
    · subst hacc0
      simp [goFieldsAux] at hw
    · simp only [goFieldsAux, if_neg hacc0] at hw
      rcases List.mem_singleton.mp hw with rfl
      refine ⟨by simpa using hacc0, fun c hc => hacc c ?_⟩
      simpa using hc
  | cons c rest ih =>
    intro acc hacc w hw
    by_cases hc : goIsSpace c
    · by_cases hacc0 : acc = []
      · subst hacc0
        rw [show goFieldsAux (c :: rest) [] = goFieldsAux rest [] by
              simp [goFieldsAux, hc]] at hw
        exact ih [] (by simp) w hw
      · rw [show goFieldsAux (c :: rest) acc = acc.reverse :: goFieldsAux rest [] by
              simp [goFieldsAux, hc, hacc0]] at hw
        rcases List.mem_cons.mp hw with rfl | hw
        · refine ⟨by simpa using hacc0, fun d hd => hacc d ?_⟩
          simpa using hd
        · exact ih [] (by simp) w hw
    · rw [show goFieldsAux (c :: rest) acc = goFieldsAux rest (c :: acc) by
            simp [goFieldsAux, hc]] at hw
      refine ih (c :: acc) ?_ w hw
      intro d hd
      rcases List.mem_cons.mp hd with rfl | hd
      · exact hc
      · exact hacc d hd

/-- Fields of a single-space join of clean nonempty words are exactly
those words. -/
theorem goFieldsAux_joinWords (gs : List (List Char))
    (hgs : ∀ w ∈ gs, w ≠ [] ∧ ∀ c ∈ w, ¬goIsSpace c) :
    goFieldsAux (joinWords gs) [] = gs := by
  induction gs with
  | nil => simp [joinWords, goFieldsAux]
  | cons w gs' ih =>
    have hw : w ≠ [] := (hgs w (by simp)).1
    have hwc : ∀ c ∈ w, ¬goIsSpace c := (hgs w (by simp)).2
    have hgs' : ∀ v ∈ gs', v ≠ [] ∧ ∀ c ∈ v, ¬goIsSpace c :=
      fun v hv => hgs v (by simp [hv])
    cases gs' with
    | nil =>
      show goFieldsAux (joinWords [w]) [] = [w]
      have hjw : joinWords [w] = w := rfl
      rw [hjw]
      have := goFieldsAux_append_clean w hwc [] []
      simp only [List.append_nil] at this
      rw [this]
      simp [goFieldsAux, hw]
    | cons v gs'' =>
      have hstep : joinWords (w :: v :: gs'') = w ++ ' ' :: joinWords (v :: gs'') := rfl
      rw [hstep, goFieldsAux_append_clean w hwc _ []]
      have hsp : goIsSpace ' ' = true := by decide
      have hrev : w.reverse ++ ([] : List Char) ≠ [] := by
        simpa using hw
      simp only [goFieldsAux, hsp, if_true]
      rw [if_neg hrev]
      simp only [List.append_nil, List.reverse_reverse]
      rw [ih hgs']

/-- `String.mk` inverts `String.toList`. -/
theorem string_mk_toList (s : String) : String.mk s.toList = s := rfl

/-- With a positive step the literal loop terminates (under enough fuel)
and produces exactly the groups of `chunkGroups`. -/
theorem chunkLoopFuel_pos (n : Int) (hn : 1 ≤ n) (ws : List String) :
    ∀ (fuel : Nat) (i : Nat), ws.length - i < fuel →
      chunkLoopFuel n ws (i : Int) fuel =
        some (GoOut.ok ((chunkGroups n.toNat (ws.drop i)).map goJoin)) := by
  have hnt : 1 ≤ n.toNat := by omega
  intro fuel
  induction fuel with
  | zero =>
    intro i h
    omega
  | succ f ih =>
    intro i h
    by_cases hi : (i : Int) < (ws.length : Int)
    · have hiN : i < ws.length := by exact_mod_cast hi
      have hdropne : ws.drop i ≠ [] := by
        intro hco
        have := congrArg List.length hco
        simp only [List.length_drop, List.length_nil] at this
        omega
      rw [chunkLoopFuel, if_pos hi]
      have hseg : goSlice ws (i : Int)
          (if (i : Int) + n > (ws.length : Int) then (ws.length : Int) else (i : Int) + n) =
          GoOut.ok ((ws.drop i).take n.toNat) := by
        by_cases hbig : (i : Int) + n > (ws.length : Int)
        · rw [if_pos hbig]
          rw [goSlice, if_pos (by constructor <;> omega)]
          have htoN : ((ws.length : Int) - (i : Int)).toNat = ws.length - i := by omega
          rw [htoN]
          have hlen : (ws.drop ((i : Int)).toNat).length = ws.length - i := by simp
          rw [List.take_of_length_le (by omega), List.take_of_length_le (by simp; omega)]
          simp
        · rw [if_neg hbig]
          rw [goSlice, if_pos (by constructor <;> omega)]
          have htoN : ((i : Int) + n - (i : Int)).toNat = n.toNat := by omega
          rw [htoN]
          simp
      rw [hseg]
      have hcast : (i : Int) + n = ((i + n.toNat : Nat) : Int) := by push_cast; omega
      rw [hcast, ih (i + n.toNat) (by omega)]
      rw [chunkGroups_cons n.toNat (ws.drop i) hdropne (by omega)]
      simp only [List.map_cons]
      rw [List.drop_drop]
    · have hiN : ws.length ≤ i := by omega
      rw [chunkLoopFuel, if_neg hi]
      rw [List.drop_eq_nil_of_le hiN, chunkGroups_nil]
      simp

/-- With step `0` and a nonempty word list the loop never finishes: the
index is re-entered at `0` forever, so every fuel bound is exhausted. -/
theorem chunkLoopFuel_zero_step (ws : List String) (hws : ws ≠ []) :
    ∀ fuel : Nat, chunkLoopFuel 0 ws 0 fuel = none := by
  have hlen : 0 < ws.length := List.length_pos.mpr hws
  intro fuel
  induction fuel with
  | zero => rfl
  | succ f ih =>
    rw [chunkLoopFuel, if_pos (by exact_mod_cast hlen)]
    have he : (if (0 : Int) + 0 > (ws.length : Int) then (ws.length : Int) else 0 + 0) =
        (0 : Int) := by
      rw [if_neg (by omega)]
      decide
    rw [he]
    have hseg : goSlice ws 0 0 = GoOut.ok [] := by
      rw [goSlice, if_pos (by constructor <;> omega)]
      simp
    rw [hseg]
    have hrec : (0 : Int) + 0 = (0 : Int) := by decide
    rw [hrec, ih]

/-- With a negative step and a nonempty word list the first iteration
panics on the slice `words[0:end]`, `end < 0`. -/
theorem chunkLoopFuel_neg_step (n : Int) (hn : n < 0) (ws : List String) (hws : ws ≠ [])
    (fuel : Nat) (hfuel : 1 ≤ fuel) :
    chunkLoopFuel n ws 0 fuel = some GoOut.panicked := by
  have hlen : 0 < ws.length := List.length_pos.mpr hws
  obtain ⟨f, rfl⟩ : ∃ f, fuel = f + 1 := ⟨fuel - 1, by omega⟩
  rw [chunkLoopFuel, if_pos (by exact_mod_cast hlen)]
  have he : (if (0 : Int) + n > (ws.length : Int) then (ws.length : Int) else 0 + n) =
      n := by
    rw [if_neg (by omega)]
    omega
  rw [he]
  have hseg : goSlice ws 0 n = GoOut.panicked := by
    rw [goSlice, if_neg (by omega)]
  rw [hseg]

/-- Fields of a joined clean word group are the group itself. -/
theorem goFields_goJoin (g : List String)
    (hg : ∀ w ∈ g, w.toList ≠ [] ∧ ∀ c ∈ w.toList, ¬goIsSpace c) :
    goFields (goJoin g) = g := by
  unfold goFields goJoin
  have h1 : (String.mk (joinWords (g.map String.toList))).toList =
      joinWords (g.map String.toList) := rfl
  rw [h1, goFieldsAux_joinWords (g.map String.toList) ?clean]
  case clean =>
    intro w hw
    rcases List.mem_map.mp hw with ⟨x, hx, rfl⟩
    exact hg x hx
  rw [List.map_map]
  have hcomp : (fun cs => String.mk cs) ∘ String.toList = id := by
    funext s
    exact string_mk_toList s
  rw [hcomp, List.map_id]

/-- Every word of `goFields t` is nonempty and whitespace-free. -/
theorem goFields_clean (t : String) :
    ∀ w ∈ goFields t, w.toList ≠ [] ∧ ∀ c ∈ w.toList, ¬goIsSpace c := by
  intro w hw
  unfold goFields at hw
  rcases List.mem_map.mp hw with ⟨cs, hcs, rfl⟩
  have := goFieldsAux_fields_clean t.toList [] (by simp) cs hcs
  simpa [string_mk_toList] using this

/-! ### Consumer loop lemmas -/

/-- The question worker processes an appended stream segment by
segment, the identity counter advancing by the first segment's
length. -/
theorem questionConsumerRun_append (create : Question → Except String Unit)
    (u : Nat → String) (l1 l2 : List Question) :
    questionConsumerRun create u (l1 ++ l2) =
      questionConsumerRun create u l1 ++
        questionConsumerRun create (fun n => u (n + l1.length)) l2 := by
  induction l1 generalizing u with
  | nil =>
    simp [questionConsumerRun]
  | cons x xs ih =>
    simp only [List.cons_append, questionConsumerRun, List.length_cons, List.append_eq]
    rw [ih (fun n => u (n + 1))]
    rfl

/-- One outcome entry per consumed question. -/
theorem questionConsumerRun_length (create : Question → Except String Unit)
    (u : Nat → String) (l : List Question) :
    (questionConsumerRun create u l).length = l.length := by
  induction l generalizing u with
  | nil => rfl
  | cons x xs ih => simp [questionConsumerRun, ih]

/-- The resource worker processes an appended stream segment by
segment. -/
theorem resourceConsumerRun_append (create : Resource → Except String Unit)
    (u : Nat → String) (l1 l2 : List Resource) :
    resourceConsumerRun create u (l1 ++ l2) =
      resourceConsumerRun create u l1 ++
        resourceConsumerRun create (fun n => u (n + l1.length)) l2 := by
  induction l1 generalizing u with
  | nil =>
    simp [resourceConsumerRun]
  | cons x xs ih =>
    simp only [List.cons_append, resourceConsumerRun, List.length_cons, List.append_eq]
    rw [ih (fun n => u (n + 1))]
    rfl

/-- One outcome entry per consumed resource. -/
theorem resourceConsumerRun_length (create : Resource → Except String Unit)
    (u : Nat → String) (l : List Resource) :
    (resourceConsumerRun create u l).length = l.length := by
  induction l generalizing u with
  | nil => rfl
  | cons x xs ih => simp [resourceConsumerRun, ih]

/-! ### Store-loop lemma -/

/-- If the first failing insert (relative to offset `off`) is the
`i`-th, the loop returns the insert error and the table keeps exactly
the `i` rows inserted before it. -/
theorem storeEmbeddingsLoop_first_failure (insertFails : Nat → Bool) (uuid : String)
    (chunks : List String) :
    ∀ (embeds : List (List ℚ)) (off : Nat) (db : List ResourceEmbeddingRow) (i : Nat),
      (∀ j, j < i → insertFails (off + j) = false) → insertFails (off + i) = true →
      i < embeds.length →
      storeEmbeddingsLoop insertFails uuid chunks off embeds db =
        (Except.error "error saving resource embedding",
         db ++ (List.range i).map (fun j =>
           ResourceEmbeddingRow.mk uuid (off + j) (chunks.getD (off + j) "")
             (embeds.getD j []))) := by
  intro embeds
  induction embeds with
  | nil =>
    intro off db i _ _ hlen
    simp at hlen
  | cons e rest ih =>
    intro off db i hbefore hfail hlen
    cases i with
    | zero =>
      simp only [Nat.add_zero] at hfail
      rw [storeEmbeddingsLoop, if_pos hfail]
      simp
    | succ k =>
      have h0 : insertFails off = false := by
        have := hbefore 0 (by omega)
        simpa using this
      rw [storeEmbeddingsLoop, if_neg (by simp [h0])]
      have hb' : ∀ j, j < k → insertFails (off + 1 + j) = false := by
        intro j hj
        have := hbefore (j + 1) (by omega)
        have harith : off + (j + 1) = off + 1 + j := by omega
        rwa [harith] at this
      have hf' : insertFails (off + 1 + k) = true := by
        have harith : off + (k + 1) = off + 1 + k := by omega
        rwa [harith] at hfail
      rw [ih (off + 1) _ k hb' hf' (by simpa using hlen)]
      have hmap : (List.range (k + 1)).map (fun j =>
            ResourceEmbeddingRow.mk uuid (off + j) (chunks.getD (off + j) "")
              ((e :: rest).getD j [])) =
          ResourceEmbeddingRow.mk uuid off (chunks.getD off "") e ::
            (List.range k).map (fun j =>
              ResourceEmbeddingRow.mk uuid (off + 1 + j) (chunks.getD (off + 1 + j) "")
                (rest.getD j [])) := by
        have htail : (List.range k).map ((fun j =>
              ResourceEmbeddingRow.mk uuid (off + j) (chunks.getD (off + j) "")
                ((e :: rest).getD j [])) ∘ Nat.succ) =
            (List.range k).map (fun j =>
              ResourceEmbeddingRow.mk uuid (off + 1 + j) (chunks.getD (off + 1 + j) "")
                (rest.getD j [])) := by
          apply List.map_congr_left
          intro j hj
          have h1 : off + (j + 1) = off + 1 + j := by omega
          simp [Function.comp, Nat.succ_eq_add_one, h1]
        rw [List.range_succ_eq_map, List.map_cons, List.map_map, htail]
        rfl
      rw [hmap]
      simp [List.append_assoc]

/-! ### Claims -/

/-- C1: claimed — `SearchSimilar(v, k)` returns results ordered so that a
lower distance means a higher rank, in both backends.  This evaluation
refutes it for the DuckDB backend: with two stored chunks at cosine
distance `0` and `1` from the query vector `[1,0]`, the query
`ORDER BY array_cosine_distance(...) DESC` returns the distance-`1`
chunk first, the strictly nearer chunk last; the pgvector backend
(`ORDER BY embedding <=> $1`, ascending) returns nearest-first as
claimed. -/
theorem duckdb_searchSimilar_ranks_farthest_first :
    SearchSimilar unitCosineDistance
        [⟨"a", "ca", "f", 0, [1, 0]⟩, ⟨"b", "cb", "f", 1, [0, 1]⟩] [1, 0] 5 =
      [⟨⟨"b", "cb", "f", 1, [0, 1]⟩, 1⟩, ⟨⟨"a", "ca", "f", 0, [1, 0]⟩, 0⟩] ∧
    unitCosineDistance [1, 0] [1, 0] < unitCosineDistance [0, 1] [1, 0] ∧
    ResourceVectorQuery (fun _ => Except.ok [1, 0]) unitCosineDistance
        [⟨"r1", 0, "c1", [1, 0]⟩, ⟨"r2", 1, "c2", [0, 1]⟩] "q" 5 =
      Except.ok [⟨"r1", "c1"⟩, ⟨"r2", "c2"⟩] := by
  refine ⟨?_, ?_, ?_⟩
  · norm_num [SearchSimilar, orderBy, insertSorted, unitCosineDistance, dotList]
  · norm_num [unitCosineDistance, dotList]
  · norm_num [ResourceVectorQuery, pgLimit, orderBy, insertSorted, unitCosineDistance, dotList]

/-- C2: claimed — after storing a chunk, `SearchSimilar` on the chunk's
own vector with `k ≥ 1` returns that chunk first.  This evaluation
refutes it for the DuckDB backend: chunk `"a"` is stored with vector
`[1,0]`, chunk `"b"` with `[0,1]`; querying with `[1,0]` and `k = 1`
returns only chunk `"b"` (distance `1`), because the `DESC` sort puts
the self-match (distance `0`) last. -/
theorem duckdb_selfquery_not_ranked_first :
    SearchSimilar unitCosineDistance
        (StoreDocument ⟨"b", "cb", "f", 1, [0, 1]⟩
          (StoreDocument ⟨"a", "ca", "f", 0, [1, 0]⟩ [])) [1, 0] 1 =
      [⟨⟨"b", "cb", "f", 1, [0, 1]⟩, 1⟩] ∧
    ([(0 : ℚ), 1] : List ℚ) ≠ [1, 0] := by
  constructor
  · simp [SearchSimilar, StoreDocument, orderBy, insertSorted, unitCosineDistance, dotList]
    norm_num
  · simp

/-- C3: claimed — every fallback vector has the store's configured
dimensionality.  Refuted: both fallback services produce 384-entry
vectors for every text, while the `documents` table of the DuckDB store
is declared with `embedding FLOAT[768]`. -/
theorem fallback_embedding_dim_mismatch :
    ∀ text : String,
      ((DefaultMockOllamaEmbeddingService.mk).generate text).1.length = 384 ∧
      ((MockEmbeddingService.mk).generate text).1.length = 384 ∧
      documentsEmbeddingDim = 768 ∧ (384 : Nat) ≠ documentsEmbeddingDim := by
  intro text
  refine ⟨?_, ?_, rfl, by decide⟩
  · simp [DefaultMockOllamaEmbeddingService.generate, mockOllamaVec]
  · simp [MockEmbeddingService.generate, mockVec]

/-- C4: claimed — a failure anywhere in chunking/embedding/storing
leaves no chunks stored.  Refuted at a concrete input: with two chunks
and the second `INSERT` failing, `Create` returns the insert error but
the first chunk's row is left in `resource_embeddings`. -/
theorem resourceCreate_insert_failure_leaves_partial_chunks :
    ResourceVectorCreate
        ⟨fun _ => Except.ok (), fun _ => Except.ok ["page"],
         fun _ => Except.ok ["c0", "c1"], fun cs => Except.ok (cs.map (fun _ => [1])),
         fun i => i == 1⟩
        ⟨"r1", "", "", "", Source.website, "http://x"⟩ [] =
      (Except.error "error saving resource embedding", [⟨"r1", 0, "c0", [1]⟩]) ∧
    ([(⟨"r1", 0, "c0", [1]⟩ : ResourceEmbeddingRow)] : List ResourceEmbeddingRow) ≠ [] := by
  constructor
  · rfl
  · simp

/-- C4 (amended): a failure in chunking or embedding leaves the chunk
table unchanged, and a failure on the `i`-th chunk insert (the first
failing one) returns the error with exactly the `i` previously inserted
chunks left stored — atomicity holds up to the store loop, but not
across individual chunk inserts. -/
theorem resourceCreate_failure_atomicity_semantics :
    (∀ (deps : CreateDeps) (b : Resource) (db : List ResourceEmbeddingRow)
        (e d : String) (ds : List String),
        deps.repoCreate b = Except.ok () → b.source = Source.website →
        deps.loadWebsite b = Except.ok (d :: ds) →
        deps.splitText d = Except.error e →
        ResourceVectorCreate deps b db = (Except.error e, db)) ∧
    (∀ (deps : CreateDeps) (b : Resource) (db : List ResourceEmbeddingRow)
        (e d : String) (ds : List String) (chunks : List String),
        deps.repoCreate b = Except.ok () → b.source = Source.website →
        deps.loadWebsite b = Except.ok (d :: ds) →
        deps.splitText d = Except.ok chunks →
        deps.embedDocuments chunks = Except.error e →
        ResourceVectorCreate deps b db = (Except.error e, db)) ∧
    (∀ (insertFails : Nat → Bool) (uuid : String) (chunks : List String)
        (embeds : List (List ℚ)) (db : List ResourceEmbeddingRow) (i : Nat),
        (∀ j, j < i → insertFails j = false) → insertFails i = true → i < embeds.length →
        storeEmbeddingsLoop insertFails uuid chunks 0 embeds db =
          (Except.error "error saving resource embedding",
           db ++ (List.range i).map (fun j =>
             ResourceEmbeddingRow.mk uuid j (chunks.getD j "") (embeds.getD j [])))) := by
  refine ⟨?_, ?_, ?_⟩
  · intro deps b db e d ds hrepo hsrc hload hsplit
    simp [ResourceVectorCreate, hrepo, hsrc, hload, hsplit]
  · intro deps b db e d ds chunks hrepo hsrc hload hsplit hembed
    simp [ResourceVectorCreate, hrepo, hsrc, hload, hsplit, hembed]
  · intro insertFails uuid chunks embeds db i hbefore hfail hlen
    have := storeEmbeddingsLoop_first_failure insertFails uuid chunks embeds 0 db i
      (by intro j hj; simpa using hbefore j hj) (by simpa using hfail) hlen
    simpa using this

/-- C4 witness: the amended store-loop clause at a concrete input — two
chunks, the insert at index `1` failing — leaves exactly the row for
chunk `0`. -/
theorem resourceCreate_failure_atomicity_semantics_witness :
    storeEmbeddingsLoop (fun j => j == 1) "r1" ["c0", "c1"] 0 [[1], [2]] [] =
      (Except.error "error saving resource embedding",
       ([] : List ResourceEmbeddingRow) ++ (List.range 1).map (fun j =>
         ResourceEmbeddingRow.mk "r1" j ((["c0", "c1"] : List String).getD j "")
           (([[1], [2]] : List (List ℚ)).getD j []))) :=
  resourceCreate_failure_atomicity_semantics.2.2 (fun j => j == 1) "r1" ["c0", "c1"]
    [[1], [2]] [] 1
    (by intro j hj; have hj0 : j = 0 := by omega
        subst hj0; rfl)
    rfl (by decide)

/-- C5: if the text-generation backend call fails, `questionService.Create`
returns an error to its caller — there is no fallback-summary path in
this pipeline, so the failure is propagated, never replaced by a
silently produced answer. -/
theorem questionCreate_propagates_generation_failure :
    ∀ (deps : QuestionServiceDeps) (q : Question) (e : String),
      (∀ p, deps.generateContent p = Except.error e) →
      ∃ msg, questionCreate deps q = Except.error msg := by
  intro deps q e hgen
  cases hrc : deps.repoCreate q with
  | error e1 => exact ⟨e1, by simp [questionCreate, hrc]⟩
  | ok _ =>
    cases hq : deps.querierQuery q.content 5 with
    | error e2 =>
      exact ⟨"failed to query contexts: " ++ e2, by simp [questionCreate, hrc, hq]⟩
    | ok ctxs =>
      exact ⟨"failed to generate answer: " ++ e, by simp [questionCreate, hrc, hq, hgen]⟩

/-- C5 witness: with a healthy repository and retriever but a failing
LLM backend, `Create` returns an error. -/
theorem questionCreate_propagates_generation_failure_witness :
    ∃ msg, questionCreate
        ⟨fun _ => Except.ok (), fun _ _ => Except.ok [],
         fun _ => Except.error "llm down", fun _ _ _ => Except.ok ()⟩
        ⟨"q1", "helper", "why is the sky blue?"⟩ = Except.error msg :=
  questionCreate_propagates_generation_failure _ _ "llm down" (fun _ => rfl)

/-- C6: claimed — for `k ≤ 0` both backends behave exactly as `k = 5`.
Refuted for the pgvector backend: `Query` passes `limit` to SQL
unchanged, so `limit = 0` returns no rows even though a chunk is stored
and `limit = 5` returns it. -/
theorem pgvector_query_ignores_nonpositive_limit :
    ResourceVectorQuery (fun _ => Except.ok [1, 0]) unitCosineDistance
        [⟨"r1", 0, "c1", [1, 0]⟩] "q" 0 = Except.ok [] ∧
    ResourceVectorQuery (fun _ => Except.ok [1, 0]) unitCosineDistance
        [⟨"r1", 0, "c1", [1, 0]⟩] "q" 5 = Except.ok [⟨"r1", "c1"⟩] ∧
    (Except.ok ([] : List QueryResult) : Except String (List QueryResult)) ≠
      Except.ok [⟨"r1", "c1"⟩] := by
  refine ⟨?_, ?_, by simp⟩
  · simp [ResourceVectorQuery, pgLimit, orderBy, insertSorted]
  · simp [ResourceVectorQuery, pgLimit, orderBy, insertSorted]

/-- C6 (amended): the DuckDB backend defaults `k ≤ 0` to `5` and always
returns at most the effective limit; the pgvector backend applies no
default — `k` goes to SQL `LIMIT` unchanged, so `k = 0` yields no rows
and a negative `k` is a database error. -/
theorem vector_store_limit_defaulting :
    (∀ (dist : List ℚ → List ℚ → ℚ) (table : List DocumentChunk) (v : List ℚ) (k : Int),
        k ≤ 0 → SearchSimilar dist table v k = SearchSimilar dist table v 5) ∧
    (∀ (dist : List ℚ → List ℚ → ℚ) (table : List DocumentChunk) (v : List ℚ) (k : Int),
        (SearchSimilar dist table v k).length ≤ (if k ≤ 0 then (5 : Int) else k).toNat) ∧
    (∀ (embed : String → Except String (List ℚ)) (dist : List ℚ → List ℚ → ℚ)
        (table : List ResourceEmbeddingRow) (q : String) (k : Int) (qv : List ℚ),
        embed q = Except.ok qv → k < 0 →
        ResourceVectorQuery embed dist table q k =
          Except.error "LIMIT must not be negative") ∧
    (∀ (embed : String → Except String (List ℚ)) (dist : List ℚ → List ℚ → ℚ)
        (table : List ResourceEmbeddingRow) (q : String) (qv : List ℚ),
        embed q = Except.ok qv →
        ResourceVectorQuery embed dist table q 0 = Except.ok []) := by
  refine ⟨?_, ?_, ?_, ?_⟩
  · intro dist table v k hk
    unfold SearchSimilar
    rw [if_pos hk, if_neg (by omega)]
  · intro dist table v k
    unfold SearchSimilar
    exact List.length_take_le _ _
  · intro embed dist table q k qv hembed hneg
    simp [ResourceVectorQuery, hembed, pgLimit, if_pos hneg]
  · intro embed dist table q qv hembed
    simp [ResourceVectorQuery, hembed, pgLimit]

/-- C6 witness: the DuckDB defaulting and the pgvector negative-limit
error at concrete inputs. -/
theorem vector_store_limit_defaulting_witness :
    SearchSimilar unitCosineDistance [] [1] (-3) = SearchSimilar unitCosineDistance [] [1] 5 ∧
    ResourceVectorQuery (fun _ => Except.ok [1]) unitCosineDistance [] "q" (-1) =
      Except.error "LIMIT must not be negative" :=
  ⟨vector_store_limit_defaulting.1 unitCosineDistance [] [1] (-3) (by decide),
   vector_store_limit_defaulting.2.2.1 (fun _ => Except.ok [1]) unitCosineDistance [] "q"
     (-1) [1] rfl (by decide)⟩

/-- C7: for every text `t` and chunk size `n > 0`, `ChunkText(t, n)`
returns exactly `⌈wordCount(t)/n⌉ = (wordCount(t)+n-1)/n` chunks, the
words of all chunks concatenated in order are exactly the words of `t`,
and an empty or whitespace-only `t` (no words) yields the empty
sequence. -/
theorem chunkText_count_and_word_preservation :
    ∀ (t : String) (n : Nat), 0 < n →
      (ChunkText t n).length = ((goFields t).length + n - 1) / n ∧
      ((ChunkText t n).map goFields).flatten = goFields t ∧
      (goFields t = [] → ChunkText t n = []) := by
  intro t n hn
  refine ⟨?_, ?_, ?_⟩
  · unfold ChunkText
    rw [List.length_map, chunkGroups_length n hn]
  · unfold ChunkText
    rw [List.map_map]
    have hmap : (chunkGroups n (goFields t)).map (goFields ∘ goJoin) =
        (chunkGroups n (goFields t)).map id := by
      apply List.map_congr_left
      intro g hg
      simp only [Function.comp_apply, id_eq]
      apply goFields_goJoin
      intro w hw
      exact goFields_clean t w (chunkGroups_mem n (goFields t) g hg w hw)
    rw [hmap, List.map_id, chunkGroups_flatten n (by omega)]
  · intro h
    unfold ChunkText
    rw [h, chunkGroups_nil]
    rfl

/-- C7 witness: the chunk-count, word-preservation and empty-input
clauses at `t = "the sky is blue"`, `n = 2`. -/
theorem chunkText_count_and_word_preservation_witness :
    0 < 2 ∧
      ((ChunkText "the sky is blue" 2).length =
          ((goFields "the sky is blue").length + 2 - 1) / 2 ∧
        ((ChunkText "the sky is blue" 2).map goFields).flatten =
          goFields "the sky is blue" ∧
        (goFields "the sky is blue" = [] → ChunkText "the sky is blue" 2 = [])) :=
  ⟨by decide, chunkText_count_and_word_preservation "the sky is blue" 2 (by decide)⟩

/-- C8: the fallback embedding functions are deterministic pure
functions of the input text: a service value holds no state (the Go
receiver is `struct{}`), a call leaves it unchanged, and two successive
calls with the same text return bit-identical vectors — for both
`MockEmbeddingService` and `DefaultMockOllamaEmbeddingService`. -/
theorem mock_embeddings_deterministic :
    ∀ (s : MockEmbeddingService) (s2 : DefaultMockOllamaEmbeddingService) (t : String),
      (s.generate t).1 = ((s.generate t).2.generate t).1 ∧
      (s.generate t).2 = s ∧
      (s2.generate t).1 = ((s2.generate t).2.generate t).1 ∧
      (s2.generate t).2 = s2 := by
  intro s s2 t
  exact ⟨rfl, rfl, rfl, rfl⟩

/-- C9: a pipeline-invocation failure on one message never stops a
worker loop: in both consumers, the stream around a failing message is
processed exactly as if run segment by segment — the failing message
contributes one logged error entry and every subsequent message is
still processed (one outcome entry per delivered message). -/
theorem consumer_loops_continue_after_failure :
    (∀ (create : Question → Except String Unit) (u : Nat → String)
        (pre post : List Question) (m : Question) (e : String),
        create (mintQuestion (u pre.length) m) = Except.error e →
        questionConsumerRun create u (pre ++ m :: post) =
          questionConsumerRun create u pre ++ some e ::
            questionConsumerRun create (fun n => u (n + (pre.length + 1))) post ∧
        (questionConsumerRun create u (pre ++ m :: post)).length =
          pre.length + 1 + post.length) ∧
    (∀ (create : Resource → Except String Unit) (u : Nat → String)
        (pre post : List Resource) (m : Resource) (e : String),
        create (mintResource (u pre.length) m) = Except.error e →
        resourceConsumerRun create u (pre ++ m :: post) =
          resourceConsumerRun create u pre ++ some e ::
            resourceConsumerRun create (fun n => u (n + (pre.length + 1))) post ∧
        (resourceConsumerRun create u (pre ++ m :: post)).length =
          pre.length + 1 + post.length) := by
  constructor
  · intro create u pre post m e hfail
    constructor
    · rw [questionConsumerRun_append create u pre (m :: post)]
      congr 1
      simp only [questionConsumerRun]
      have h0 : (0 : Nat) + pre.length = pre.length := Nat.zero_add _
      have hfun : (fun n => u (n + 1 + pre.length)) = (fun n => u (n + (pre.length + 1))) := by
        funext n
        congr 1
        omega
      rw [h0, hfail, hfun]
    · rw [questionConsumerRun_length]
      simp only [List.length_append, List.length_cons]
      omega
  · intro create u pre post m e hfail
    constructor
    · rw [resourceConsumerRun_append create u pre (m :: post)]
      congr 1
      simp only [resourceConsumerRun]
      have h0 : (0 : Nat) + pre.length = pre.length := Nat.zero_add _
      have hfun : (fun n => u (n + 1 + pre.length)) = (fun n => u (n + (pre.length + 1))) := by
        funext n
        congr 1
        omega
      rw [h0, hfail, hfun]
    · rw [resourceConsumerRun_length]
      simp only [List.length_append, List.length_cons]
      omega

/-- C9 witness: the question worker with a stream of three messages
whose middle one fails keeps processing the third. -/
theorem consumer_loops_continue_after_failure_witness :
    questionConsumerRun
        (fun q => if q.content = "bad" then Except.error "boom" else Except.ok ())
        (fun _ => "u")
        ([⟨"", "r", "ok1"⟩] ++ (⟨"", "r", "bad"⟩ : Question) :: [⟨"", "r", "ok2"⟩]) =
      questionConsumerRun
        (fun q => if q.content = "bad" then Except.error "boom" else Except.ok ())
        (fun _ => "u") [⟨"", "r", "ok1"⟩] ++ some "boom" ::
        questionConsumerRun
          (fun q => if q.content = "bad" then Except.error "boom" else Except.ok ())
          (fun n => (fun _ => "u") (n + (([⟨"", "r", "ok1"⟩] : List Question).length + 1)))
          [⟨"", "r", "ok2"⟩] ∧
    (questionConsumerRun
        (fun q => if q.content = "bad" then Except.error "boom" else Except.ok ())
        (fun _ => "u")
        ([⟨"", "r", "ok1"⟩] ++ (⟨"", "r", "bad"⟩ : Question) :: [⟨"", "r", "ok2"⟩])).length =
      ([⟨"", "r", "ok1"⟩] : List Question).length + 1 +
        ([⟨"", "r", "ok2"⟩] : List Question).length :=
  consumer_loops_continue_after_failure.1
    (fun q => if q.content = "bad" then Except.error "boom" else Except.ok ())
    (fun _ => "u") [⟨"", "r", "ok1"⟩] [⟨"", "r", "ok2"⟩] ⟨"", "r", "bad"⟩ "boom" (by rfl)

/-- C10: with a positive chunk size the `ChunkText` loop terminates
(any fuel above the word count suffices) and computes `ChunkText`; the
precondition is necessary: with `maxWords = 0` and a nonempty word list
the loop index never advances and no fuel bound suffices, and for any
`maxWords ≤ 0` the loop never produces a normal result. -/
theorem chunkText_loop_termination :
    ∀ (t : String) (n : Int),
      (1 ≤ n → ∀ fuel : Nat, (goFields t).length < fuel →
          chunkLoopFuel n (goFields t) 0 fuel = some (GoOut.ok (ChunkText t n.toNat))) ∧
      (n = 0 → goFields t ≠ [] →
          ∀ fuel : Nat, chunkLoopFuel n (goFields t) 0 fuel = none) ∧
      (n ≤ 0 → goFields t ≠ [] → ∀ (fuel : Nat) (r : List String),
          chunkLoopFuel n (goFields t) 0 fuel ≠ some (GoOut.ok r)) := by
  intro t n
  refine ⟨?_, ?_, ?_⟩
  · intro hn fuel hfuel
    have h := chunkLoopFuel_pos n hn (goFields t) fuel 0 (by omega)
    simpa [ChunkText] using h
  · intro hn0 hne fuel
    subst hn0
    exact chunkLoopFuel_zero_step (goFields t) hne fuel
  · intro hn hne fuel r
    rcases lt_or_eq_of_le hn with hlt | heq
    · cases fuel with
      | zero => simp [chunkLoopFuel]
      | succ f =>
        rw [chunkLoopFuel_neg_step n hlt (goFields t) hne (f + 1) (by omega)]
        simp
    · rw [heq, chunkLoopFuel_zero_step (goFields t) hne fuel]
      simp

/-- C10 witness: the loop at `n = 2` terminates on `"a b c"` with fuel
`4`, and at `n = 0` on the nonempty `"a"` exhausts any fuel. -/
theorem chunkText_loop_termination_witness :
    chunkLoopFuel 2 (goFields "a b c") 0 4 =
      some (GoOut.ok (ChunkText "a b c" (2 : Int).toNat)) ∧
    chunkLoopFuel 0 (goFields "a") 0 9 = none :=
  ⟨(chunkText_loop_termination "a b c" 2).1 (by decide) 4 (by decide),
   (chunkText_loop_termination "a" 0).2.1 rfl (by decide) 9⟩

end GreySeal
